import Mathlib

/-!
# Verification of `mdevaluate/pbc.py`

Shallow embedding of the PBC geometry core of the repository:
`pbc_diff_old`, `pbc_diff`, `whole`, `nojump` (with the reader-attached
ordered cache, including the object aliasing of the cached numpy arrays),
and `pbc_points`.  Real-valued coordinates are modelled as exact rationals
(`ℚ`); integer crossing counts as `ℤ`.  Vectors of length 3 are triples.

All definitions are translated from the Python source; doc comments on the
definitions cite the function they embed.
-/

set_option autoImplicit false

/-- 3-vectors of rational coordinates (one row of a numpy `(n, 3)` array). -/
abbrev Vec3 : Type := ℚ × ℚ × ℚ

/-- Componentwise subtraction of 3-vectors (`v1 - v2` in numpy). -/
def vsub (a b : Vec3) : Vec3 := (a.1 - b.1, a.2.1 - b.2.1, a.2.2 - b.2.2)

/-- Componentwise addition of 3-vectors (`a + b` in numpy). -/
def vadd (a b : Vec3) : Vec3 := (a.1 + b.1, a.2.1 + b.2.1, a.2.2 + b.2.2)

/-- Python's float modulo `a % b` (for `b > 0` the result lies in `[0, b)`):
`a - b * ⌊a / b⌋`. -/
def fmod (a b : ℚ) : ℚ := a - b * ⌊a / b⌋

/-- One component of `pbc_diff_old` (`pbc.py`, lines 11-22), `box` present:
`v = v1 % box - v2 % box; v -= (v > box/2) * box; v += (v < -box/2) * box`.
The two corrections are sequential, exactly as in the source. -/
def pbcDiffOld1 (x1 x2 b : ℚ) : ℚ :=
  let v := fmod x1 b - fmod x2 b
  let v := v - (if b / 2 < v then b else 0)
  let v := v + (if v < -(b / 2) then b else 0)
  v

/-- `pbc_diff_old(v1, v2, box)` from `pbc.py` lines 11-22: componentwise
modulo-then-correct minimum-image displacement; `box is None` means plain
subtraction. -/
def pbc_diff_old (v1 v2 : Vec3) (box : Option Vec3) : Vec3 :=
  match box with
  | none => vsub v1 v2
  | some b => (pbcDiffOld1 v1.1 v2.1 b.1,
               pbcDiffOld1 v1.2.1 v2.2.1 b.2.1,
               pbcDiffOld1 v1.2.2 v2.2.2 b.2.2)

/-- numpy's `round` (round half to even), on exact rationals.  For a
fractional part of exactly `1/2` it picks the even neighbour; otherwise it
is ordinary rounding to the nearest integer. -/
def roundHalfEven (q : ℚ) : ℤ :=
  if q - ⌊q⌋ = 1 / 2 then (if ⌊q⌋ % 2 = 0 then ⌊q⌋ else ⌊q⌋ + 1)
  else round q

/-- One component of `pbc_diff` (`pbc.py`, lines 25-36), `box` present:
`s = v / box; v = box * (s - s.round())`. -/
def pbcDiff1 (v b : ℚ) : ℚ :=
  let s := v / b
  b * (s - roundHalfEven s)

/-- `pbc_diff(v1, v2=None, box=None)` from `pbc.py` lines 25-36: the
round-based minimum-image displacement.  `v2 = None` leaves `v1` as the
displacement; `box = None` skips folding. -/
def pbc_diff (v1 : Vec3) (v2 : Option Vec3) (box : Option Vec3) : Vec3 :=
  let v := match v2 with
    | none => v1
    | some u => vsub v1 u
  match box with
  | none => v
  | some b => (pbcDiff1 v.1 b.1, pbcDiff1 v.2.1 b.2.1, pbcDiff1 v.2.2 b.2.2)

/-! ## Arithmetic facts about the two folding implementations -/

/-- numpy rounding moves a value by at most a half. -/
lemma roundHalfEven_abs_le (q : ℚ) : |q - roundHalfEven q| ≤ 1 / 2 := by
  unfold roundHalfEven
  by_cases h : q - ⌊q⌋ = 1 / 2
  · rw [if_pos h]
    by_cases hpar : ⌊q⌋ % 2 = 0
    · rw [if_pos hpar, abs_le]; constructor <;> linarith
    · rw [if_neg hpar]
      push_cast
      rw [abs_le]; constructor <;> linarith
  · rw [if_neg h]; exact abs_sub_round q

/-- Away from exact half-integers, numpy rounding moves a value by strictly
less than a half. -/
lemma roundHalfEven_abs_lt (q : ℚ) (h : q - ⌊q⌋ ≠ 1 / 2) :
    |q - roundHalfEven q| < 1 / 2 := by
  unfold roundHalfEven
  rw [if_neg h, round_eq]
  have h1 : ((⌊q + 1 / 2⌋ : ℤ) : ℚ) ≤ q + 1 / 2 := Int.floor_le _
  have h2 : q + 1 / 2 < (⌊q + 1 / 2⌋ : ℤ) + 1 := Int.lt_floor_add_one _
  have h3 : ((⌊q + 1 / 2⌋ : ℤ) : ℚ) ≠ q + 1 / 2 := by
    intro heq
    apply h
    have hfl : ⌊q⌋ = ⌊q + 1 / 2⌋ - 1 := by
      rw [Int.floor_eq_iff]
      constructor
      · push_cast; linarith
      · push_cast; linarith
    rw [hfl]; push_cast; linarith
  rw [abs_lt]
  constructor <;> [skip; linarith]
  have : ((⌊q + 1 / 2⌋ : ℤ) : ℚ) < q + 1 / 2 := lt_of_le_of_ne h1 h3
  linarith

/-- `pbc_diff` folds every component into `[-b/2, b/2]`. -/
lemma pbcDiff1_bounds (v b : ℚ) (hb : 0 < b) :
    -(b / 2) ≤ pbcDiff1 v b ∧ pbcDiff1 v b ≤ b / 2 := by
  have habs : |pbcDiff1 v b| ≤ b / 2 := by
    have h := roundHalfEven_abs_le (v / b)
    have : |pbcDiff1 v b| = b * |v / b - roundHalfEven (v / b)| := by
      unfold pbcDiff1
      rw [abs_mul, abs_of_pos hb]
    rw [this]
    calc b * |v / b - roundHalfEven (v / b)| ≤ b * (1 / 2) := by
          exact mul_le_mul_of_nonneg_left h hb.le
      _ = b / 2 := by ring
  exact abs_le.mp habs

/-- Python `%` with a positive modulus yields a value in `[0, b)`. -/
lemma fmod_bounds (x b : ℚ) (hb : 0 < b) : 0 ≤ fmod x b ∧ fmod x b < b := by
  unfold fmod
  have hne : b ≠ 0 := ne_of_gt hb
  have h1 : ((⌊x / b⌋ : ℤ) : ℚ) ≤ x / b := Int.floor_le _
  have h2 : x / b < (⌊x / b⌋ : ℤ) + 1 := Int.lt_floor_add_one _
  have e1 : b * (x / b) = x := by field_simp
  have h3 : b * ((⌊x / b⌋ : ℤ) : ℚ) ≤ x := by
    calc b * ((⌊x / b⌋ : ℤ) : ℚ) ≤ b * (x / b) := by
          exact mul_le_mul_of_nonneg_left h1 hb.le
      _ = x := e1
  have h4 : x < b * (((⌊x / b⌋ : ℤ) : ℚ) + 1) := by
    calc x = b * (x / b) := e1.symm
      _ < b * (((⌊x / b⌋ : ℤ) : ℚ) + 1) := by
          exact mul_lt_mul_of_pos_left h2 hb
  constructor <;> nlinarith

/-- Two values within the half-open minimum-image window that differ by an
integer multiple of the box length are equal. -/
lemma eq_of_congruent_in_window (b a c : ℚ) (hb : 0 < b) (K : ℤ)
    (hK : a - c = b * K) (ha1 : -(b / 2) ≤ a) (ha2 : a ≤ b / 2)
    (hc : |c| < b / 2) : a = c := by
  have hc' := abs_lt.mp hc
  have habs : |(K : ℚ)| < 1 := by
    rw [abs_lt]
    constructor <;> nlinarith
  have hK0 : K = 0 := by
    have h1 : -1 < (K : ℚ) := (abs_lt.mp habs).1
    have h2 : (K : ℚ) < 1 := (abs_lt.mp habs).2
    have h1' : (-1 : ℤ) < K := by exact_mod_cast h1
    have h2' : K < 1 := by exact_mod_cast h2
    omega
  rw [hK0] at hK
  push_cast at hK
  linarith

/-- The modulo-then-correct fold and the round-based fold agree on every
component whose scaled displacement is not an exact half-integer. -/
lemma pbcDiffOld1_eq_pbcDiff1 (x1 x2 b : ℚ) (hb : 0 < b)
    (hf : (x1 - x2) / b - ⌊(x1 - x2) / b⌋ ≠ 1 / 2) :
    pbcDiffOld1 x1 x2 b = pbcDiff1 (x1 - x2) b := by
  have hne : b ≠ 0 := ne_of_gt hb
  -- the round-based value and its strict window
  have e1 : b * ((x1 - x2) / b) = x1 - x2 := by field_simp
  have hnew_eq : pbcDiff1 (x1 - x2) b =
      (x1 - x2) - b * (roundHalfEven ((x1 - x2) / b) : ℚ) := by
    unfold pbcDiff1
    rw [mul_sub, e1]
  have hnew_lt : |pbcDiff1 (x1 - x2) b| < b / 2 := by
    have h := roundHalfEven_abs_lt ((x1 - x2) / b) hf
    have e : |pbcDiff1 (x1 - x2) b| =
        b * |(x1 - x2) / b - roundHalfEven ((x1 - x2) / b)| := by
      unfold pbcDiff1
      rw [abs_mul, abs_of_pos hb]
    rw [e]
    calc b * |(x1 - x2) / b - roundHalfEven ((x1 - x2) / b)| < b * (1 / 2) := by
          exact mul_lt_mul_of_pos_left h hb
      _ = b / 2 := by ring
  -- the modulo-based value: congruent to x1 - x2, inside [-b/2, b/2]
  have hu_eq : fmod x1 b - fmod x2 b =
      (x1 - x2) - b * ((⌊x1 / b⌋ - ⌊x2 / b⌋ : ℤ) : ℚ) := by
    unfold fmod; push_cast; ring
  have hub1 := fmod_bounds x1 b hb
  have hub2 := fmod_bounds x2 b hb
  have hulo : -b < fmod x1 b - fmod x2 b := by linarith [hub1.1, hub2.2]
  have huhi : fmod x1 b - fmod x2 b < b := by linarith [hub1.2, hub2.1]
  by_cases hc1 : b / 2 < fmod x1 b - fmod x2 b
  · have hnc2 : ¬(fmod x1 b - fmod x2 b - b < -(b / 2)) := by intro h; linarith
    have hold : pbcDiffOld1 x1 x2 b = fmod x1 b - fmod x2 b - b := by
      show (fmod x1 b - fmod x2 b - (if b / 2 < fmod x1 b - fmod x2 b then b else 0)) +
          (if (fmod x1 b - fmod x2 b -
                (if b / 2 < fmod x1 b - fmod x2 b then b else 0)) < -(b / 2)
            then b else 0) = fmod x1 b - fmod x2 b - b
      rw [if_pos hc1, if_neg hnc2]; ring
    refine eq_of_congruent_in_window b _ _ hb
      (roundHalfEven ((x1 - x2) / b) - (⌊x1 / b⌋ - ⌊x2 / b⌋) - 1) ?_ ?_ ?_ hnew_lt
    · rw [hold, hnew_eq, hu_eq]; push_cast; ring
    · rw [hold]; linarith
    · rw [hold]; linarith
  · by_cases hc2 : fmod x1 b - fmod x2 b < -(b / 2)
    · have hold : pbcDiffOld1 x1 x2 b = fmod x1 b - fmod x2 b + b := by
        show (fmod x1 b - fmod x2 b - (if b / 2 < fmod x1 b - fmod x2 b then b else 0)) +
            (if (fmod x1 b - fmod x2 b -
                  (if b / 2 < fmod x1 b - fmod x2 b then b else 0)) < -(b / 2)
              then b else 0) = fmod x1 b - fmod x2 b + b
        rw [if_neg hc1]
        rw [sub_zero]
        rw [if_pos hc2]
      refine eq_of_congruent_in_window b _ _ hb
        (roundHalfEven ((x1 - x2) / b) - (⌊x1 / b⌋ - ⌊x2 / b⌋) + 1) ?_ ?_ ?_ hnew_lt
      · rw [hold, hnew_eq, hu_eq]; push_cast; ring
      · rw [hold]; linarith
      · rw [hold]; linarith
    · have hold : pbcDiffOld1 x1 x2 b = fmod x1 b - fmod x2 b := by
        show (fmod x1 b - fmod x2 b - (if b / 2 < fmod x1 b - fmod x2 b then b else 0)) +
            (if (fmod x1 b - fmod x2 b -
                  (if b / 2 < fmod x1 b - fmod x2 b then b else 0)) < -(b / 2)
              then b else 0) = fmod x1 b - fmod x2 b
        rw [if_neg hc1]
        rw [sub_zero]
        rw [if_neg hc2]
        ring
      refine eq_of_congruent_in_window b _ _ hb
        (roundHalfEven ((x1 - x2) / b) - (⌊x1 / b⌋ - ⌊x2 / b⌋)) ?_ ?_ ?_ hnew_lt
      · rw [hold, hnew_eq, hu_eq]; push_cast; ring
      · rw [hold]; linarith
      · rw [hold]; linarith

/-! ## Claim C4 -/

/-- Claim C4 is false as stated: at a displacement of exactly half a box
length (mod the box), the two implementations return different
minimum-image representatives.  With `v1 = (3,0,0)`, `v2 = (0,0,0)` and
`box = (2,2,2)` (positive edges), `pbc_diff_old` returns `(1,0,0)` while
`pbc_diff` (round half to even) returns `(-1,0,0)`. -/
theorem pbc_diff_equiv_counterexample :
    ((0 : ℚ) < 2) ∧
    pbc_diff_old (3, 0, 0) (0, 0, 0) (some (2, 2, 2)) = (1, 0, 0) ∧
    pbc_diff (3, 0, 0) (some (0, 0, 0)) (some (2, 2, 2)) = (-1, 0, 0) ∧
    pbc_diff_old (3, 0, 0) (0, 0, 0) (some (2, 2, 2)) ≠
      pbc_diff (3, 0, 0) (some (0, 0, 0)) (some (2, 2, 2)) := by
  have h1 : pbc_diff_old (3, 0, 0) (0, 0, 0) (some (2, 2, 2)) = ((1 : ℚ), (0 : ℚ), (0 : ℚ)) := by
    norm_num [pbc_diff_old, pbcDiffOld1, fmod]
  have h2 : pbc_diff (3, 0, 0) (some (0, 0, 0)) (some (2, 2, 2)) = ((-1 : ℚ), (0 : ℚ), (0 : ℚ)) := by
    norm_num [pbc_diff, pbcDiff1, roundHalfEven, vsub, round_eq]
  refine ⟨by norm_num, h1, h2, ?_⟩
  rw [h1, h2]
  intro h
  have := congrArg Prod.fst h
  norm_num at this

/-- Claim C4 (amended): for positive box edges, `pbc_diff(v1, v2, box)` and
`pbc_diff_old(v1, v2, box)` return the same minimum-image displacement on
every component whose displacement is not an exact odd multiple of half the
box edge (i.e. `(v1-v2)/box` has fractional part `≠ 1/2`); at exact
half-box displacements the two pick representatives of the same magnitude
`box/2` but possibly opposite sign. -/
theorem pbc_diff_old_eq_pbc_diff (v1 v2 b : Vec3)
    (hb1 : 0 < b.1) (hb2 : 0 < b.2.1) (hb3 : 0 < b.2.2)
    (hf1 : (v1.1 - v2.1) / b.1 - ⌊(v1.1 - v2.1) / b.1⌋ ≠ 1 / 2)
    (hf2 : (v1.2.1 - v2.2.1) / b.2.1 - ⌊(v1.2.1 - v2.2.1) / b.2.1⌋ ≠ 1 / 2)
    (hf3 : (v1.2.2 - v2.2.2) / b.2.2 - ⌊(v1.2.2 - v2.2.2) / b.2.2⌋ ≠ 1 / 2) :
    pbc_diff_old v1 v2 (some b) = pbc_diff v1 (some v2) (some b) := by
  unfold pbc_diff_old pbc_diff vsub
  refine Prod.ext ?_ (Prod.ext ?_ ?_)
  · exact pbcDiffOld1_eq_pbcDiff1 _ _ _ hb1 hf1
  · exact pbcDiffOld1_eq_pbcDiff1 _ _ _ hb2 hf2
  · exact pbcDiffOld1_eq_pbcDiff1 _ _ _ hb3 hf3

/-- Witness for the amended claim C4 at `v1 = (7/10,0,0)`, `v2 = (0,0,0)`,
`box = (2,2,2)`. -/
theorem pbc_diff_old_eq_pbc_diff_witness :
    pbc_diff_old (7 / 10, 0, 0) (0, 0, 0) (some (2, 2, 2)) =
      pbc_diff (7 / 10, 0, 0) (some (0, 0, 0)) (some (2, 2, 2)) :=
  pbc_diff_old_eq_pbc_diff (7 / 10, 0, 0) (0, 0, 0) (2, 2, 2)
    (by norm_num) (by norm_num) (by norm_num)
    (by norm_num) (by norm_num) (by norm_num)

/-! ## Claim C9 -/

/-- Claim C9: every component of `pbc_diff(v, None, b)` lies in
`[-b/2, b/2]` for positive box edges. -/
theorem pbc_diff_fold_in_halfbox (v b : Vec3)
    (hb1 : 0 < b.1) (hb2 : 0 < b.2.1) (hb3 : 0 < b.2.2) :
    (-(b.1 / 2) ≤ (pbc_diff v none (some b)).1 ∧
      (pbc_diff v none (some b)).1 ≤ b.1 / 2) ∧
    (-(b.2.1 / 2) ≤ (pbc_diff v none (some b)).2.1 ∧
      (pbc_diff v none (some b)).2.1 ≤ b.2.1 / 2) ∧
    (-(b.2.2 / 2) ≤ (pbc_diff v none (some b)).2.2 ∧
      (pbc_diff v none (some b)).2.2 ≤ b.2.2 / 2) := by
  unfold pbc_diff
  exact ⟨pbcDiff1_bounds _ _ hb1, pbcDiff1_bounds _ _ hb2, pbcDiff1_bounds _ _ hb3⟩

/-- Witness for claim C9 at `v = (1,2,3)`, `b = (2,2,2)`. -/
theorem pbc_diff_fold_in_halfbox_witness :
    (-((2 : ℚ) / 2) ≤ (pbc_diff (1, 2, 3) none (some (2, 2, 2))).1 ∧
      (pbc_diff (1, 2, 3) none (some (2, 2, 2))).1 ≤ (2 : ℚ) / 2) ∧
    (-((2 : ℚ) / 2) ≤ (pbc_diff (1, 2, 3) none (some (2, 2, 2))).2.1 ∧
      (pbc_diff (1, 2, 3) none (some (2, 2, 2))).2.1 ≤ (2 : ℚ) / 2) ∧
    (-((2 : ℚ) / 2) ≤ (pbc_diff (1, 2, 3) none (some (2, 2, 2))).2.2 ∧
      (pbc_diff (1, 2, 3) none (some (2, 2, 2))).2.2 ≤ (2 : ℚ) / 2) :=
  pbc_diff_fold_in_halfbox (1, 2, 3) (2, 2, 2) (by norm_num) (by norm_num) (by norm_num)

/-! ## `whole` (`pbc.py`, lines 47-70)

The frame data consumed by `whole`: per-atom positions, masses, 1-indexed
residue ids (the spec's data model: ids are positive), and the box
diagonal.  Atoms are indexed by naturals below `natoms`; axes by `Fin 3`.
-/

/-- The data of a `CoordinateFrame` as consumed by `whole`. -/
structure WFrame where
  natoms : ℕ
  pos : ℕ → Fin 3 → ℚ
  masses : ℕ → ℚ
  residue_ids : ℕ → ℕ
  box : Fin 3 → ℚ

/-- `np.bincount(residue_ids, weights=w)[r]`: the sum of `w` over the atoms
of residue `r`. -/
def bincountW (f : WFrame) (w : ℕ → ℚ) (r : ℕ) : ℚ :=
  ∑ j in Finset.range f.natoms, if f.residue_ids j = r then w j else 0

/-- The per-atom residue center of mass (`pbc.py` lines 53-56): for each
axis, `bincount(residue_ids, weights=c*masses)[1:] / bincount(residue_ids,
weights=masses)[1:]`, broadcast back onto atoms via `[residue_ids - 1]`.
For 1-indexed residue ids the `[1:]`-shifted indexing selects exactly the
atom's own residue. -/
def coms (f : WFrame) (i : ℕ) (d : Fin 3) : ℚ :=
  bincountW f (fun j => f.pos j d * f.masses j) (f.residue_ids i) /
    bincountW f f.masses (f.residue_ids i)

/-- `cd = frame - coms` (`pbc.py` line 59). -/
def cd (f : WFrame) (i : ℕ) (d : Fin 3) : ℚ := f.pos i d - coms f i d

/-- The correction after the two `np.where` assignments (`pbc.py` lines
58-63); the later assignment (`cd < -box/2*0.9` giving `+box`) overwrites
the earlier one where both would apply. -/
def cor0 (f : WFrame) (i : ℕ) (d : Fin 3) : ℚ :=
  if cd f i d < -(f.box d / 2 * (9 / 10)) then f.box d
  else if f.box d / 2 * (9 / 10) < cd f i d then -(f.box d) else 0

/-- `np.bincount(residue_ids)[r]`: the number of atoms in residue `r`. -/
def residue_count (f : WFrame) (r : ℕ) : ℕ :=
  ((Finset.range f.natoms).filter (fun j => f.residue_ids j = r)).card

/-- The duomask after `duomask[::2] = False` (`pbc.py` lines 65-67): the
atom belongs to a residue of exactly two atoms AND has odd global index
(the `[::2]` slice clears the even indices). -/
def duomask (f : WFrame) (i : ℕ) : Bool :=
  (residue_count f (f.residue_ids i) == 2) && (i % 2 == 1)

/-- The final correction (`pbc.py` line 68): `cor[duomask] = 0`. -/
def cor (f : WFrame) (i : ℕ) (d : Fin 3) : ℚ :=
  if duomask f i then 0 else cor0 f i d

/-- `whole(frame) = frame + cor` (`pbc.py` line 70), per atom and axis. -/
def whole (f : WFrame) (i : ℕ) (d : Fin 3) : ℚ := f.pos i d + cor f i d

/-- A one-atom frame used as a concrete witness input. -/
def frameW1 : WFrame := ⟨1, fun _ _ => 0, fun _ => 1, fun _ => 1, fun _ => 10⟩

/-! ## Claim C10 -/

/-- Claim C10: one application of `whole` moves every coordinate by exactly
`0`, `+boxEdge` or `-boxEdge` on its axis. -/
theorem whole_moves_at_most_one_box (f : WFrame) (i : ℕ) (d : Fin 3)
    (hbox : ∀ e : Fin 3, 0 < f.box e) (hi : i < f.natoms) :
    whole f i d - f.pos i d = 0 ∨ whole f i d - f.pos i d = f.box d ∨
      whole f i d - f.pos i d = -(f.box d) := by
  unfold whole cor cor0
  by_cases h0 : duomask f i = true
  · rw [if_pos h0]; left; ring
  · rw [if_neg h0]
    split_ifs
    · right; left; ring
    · right; right; ring
    · left; ring

/-- Witness for claim C10 at the one-atom frame `frameW1`. -/
theorem whole_moves_at_most_one_box_witness :
    whole frameW1 0 0 - frameW1.pos 0 0 = 0 ∨
      whole frameW1 0 0 - frameW1.pos 0 0 = frameW1.box 0 ∨
      whole frameW1 0 0 - frameW1.pos 0 0 = -(frameW1.box 0) :=
  whole_moves_at_most_one_box frameW1 0 0 (fun _ => by norm_num [frameW1]) (by norm_num [frameW1])

/-! ## Claim C5 -/

/-- The frame refuting claim C5: three equal-mass atoms of one residue at
`x = 0, 0, 30` in a `10×10×10` box. -/
def frameC5 : WFrame :=
  ⟨3, fun i d => if i = 2 ∧ d = 0 then 30 else 0, fun _ => 1, fun _ => 1, fun _ => 10⟩

/-- Claim C5 is false as stated: in `frameC5` the residue center of mass is
`x = 10`, atom `2` (member of a 3-atom residue, so not exempt) is corrected
from `30` to `20`, which is `10 > box/2 = 5` away from its residue's center
of mass.  (The corrected positions are `10, 10, 20`, so atom `2` also ends
up `20/3 > 5` from the recomputed center of mass `40/3`.) -/
theorem whole_halfbox_counterexample :
    (∀ e : Fin 3, 0 < frameC5.box e) ∧
    2 < frameC5.natoms ∧
    residue_count frameC5 (frameC5.residue_ids 2) ≠ 2 ∧
    coms frameC5 2 0 = 10 ∧
    whole frameC5 2 0 = 20 ∧
    ¬ |whole frameC5 2 0 - coms frameC5 2 0| ≤ frameC5.box 0 / 2 := by
  have hcom : coms frameC5 2 0 = 10 := by
    norm_num [coms, bincountW, frameC5, Finset.sum_range_succ]
  have hdm : duomask frameC5 2 = false := by decide
  have hc0 : cor0 frameC5 2 0 = -10 := by
    rw [cor0, cd, hcom]
    norm_num [frameC5]
  have hwhole : whole frameC5 2 0 = 20 := by
    rw [whole, cor, hdm, hc0]
    norm_num [frameC5]
  refine ⟨fun e => by norm_num [frameC5], by norm_num [frameC5], by decide, hcom, hwhole, ?_⟩
  rw [hwhole, hcom]
  norm_num [frameC5]

/-- Claim C5 (amended): after one application of `whole`, every
non-exempted atom (not an odd-indexed atom of a two-atom residue) whose
displacement from its residue's center of mass is, per axis, either at most
`0.45·boxEdge` in absolute value or between `0.5·boxEdge` and
`1.5·boxEdge` in absolute value, ends up within half a box edge of that
center of mass on that axis.  (The counterexample shows atoms further than
`1.5·boxEdge` stay outside; displacements inside `(0.45·b, 0.5·b)` are
over-corrected to just outside the half-box as well.) -/
theorem whole_halfbox_amended (f : WFrame) (i : ℕ) (d : Fin 3)
    (hb : 0 < f.box d)
    (hmask : duomask f i = false)
    (hcd : |cd f i d| ≤ f.box d / 2 * (9 / 10) ∨
      (f.box d / 2 ≤ |cd f i d| ∧ |cd f i d| ≤ 3 * (f.box d / 2))) :
    |whole f i d - coms f i d| ≤ f.box d / 2 := by
  have he : whole f i d - coms f i d = cd f i d + cor f i d := by
    unfold whole cd; ring
  have hcor : cor f i d = cor0 f i d := by
    unfold cor; rw [hmask]; simp
  rw [he, hcor]
  have hcd' : (-(f.box d / 2 * (9 / 10)) ≤ cd f i d ∧ cd f i d ≤ f.box d / 2 * (9 / 10)) ∨
      ((f.box d / 2 ≤ cd f i d ∨ cd f i d ≤ -(f.box d / 2)) ∧
        (-(3 * (f.box d / 2)) ≤ cd f i d ∧ cd f i d ≤ 3 * (f.box d / 2))) := by
    rcases hcd with h | ⟨h1, h2⟩
    · left; exact abs_le.mp h
    · right
      refine ⟨?_, abs_le.mp h2⟩
      rcases le_abs.mp h1 with h | h
      · left; exact h
      · right; linarith
  unfold cor0
  split_ifs with hA hB
  · rw [abs_le]
    rcases hcd' with ⟨h1, h2⟩ | ⟨h3 | h3, h4, h5⟩ <;> constructor <;> linarith
  · rw [abs_le]
    rcases hcd' with ⟨h1, h2⟩ | ⟨h3 | h3, h4, h5⟩ <;> constructor <;> linarith
  · rw [abs_le]
    rcases hcd' with ⟨h1, h2⟩ | ⟨h3 | h3, h4, h5⟩ <;> constructor <;> linarith

/-- Witness for the amended claim C5 at the one-atom frame `frameW1`. -/
theorem whole_halfbox_amended_witness :
    |whole frameW1 0 0 - coms frameW1 0 0| ≤ frameW1.box 0 / 2 :=
  whole_halfbox_amended frameW1 0 0 (by norm_num [frameW1]) (by decide)
    (Or.inl (by norm_num [cd, coms, bincountW, frameW1, Finset.sum_range_succ]))

/-! ## Claim C6 -/

/-- The frame refuting claim C6: residue 1 has atoms `0,1,2` (all at the
origin); residue 2 has exactly two atoms, at global indices `3` (first of
the pair) and `4` (second), at `x = 0` and `x = 46/5 = 9.2`; box edge 10,
equal masses. -/
def frameC6 : WFrame :=
  ⟨5, fun i d => if i = 4 ∧ d = 0 then 46 / 5 else 0, fun _ => 1,
    fun i => if i ≤ 2 then 1 else 2, fun _ => 10⟩

/-- Claim C6 is false as stated: in `frameC6`, atoms `3` and `4` form a
two-atom residue with atom `3` first and atom `4` second.  Both receive a
nonzero computed correction (`+10` and `-10`).  The code zeroes the
correction of atom `3` — the FIRST of the pair (odd global index) — and
keeps the correction of atom `4` — the SECOND — exactly opposite to the
claim, because `duomask[::2] = False` clears even global atom indices, not
per-residue second members. -/
theorem whole_duo_counterexample :
    frameC6.residue_ids 3 = 2 ∧ frameC6.residue_ids 4 = 2 ∧
    residue_count frameC6 2 = 2 ∧
    cor0 frameC6 3 0 = 10 ∧ whole frameC6 3 0 = frameC6.pos 3 0 ∧
    cor0 frameC6 4 0 = -10 ∧ whole frameC6 4 0 ≠ frameC6.pos 4 0 := by
  have hcom3 : coms frameC6 3 0 = 23 / 5 := by
    rw [coms]
    simp only [bincountW, frameC6, Finset.sum_range_succ, Finset.sum_range_zero]
    norm_num
  have hcom4 : coms frameC6 4 0 = 23 / 5 := by
    rw [coms]
    simp only [bincountW, frameC6, Finset.sum_range_succ, Finset.sum_range_zero]
    norm_num
  have hcor3 : cor0 frameC6 3 0 = 10 := by
    rw [cor0, cd, hcom3]
    norm_num [frameC6]
  have hcor4 : cor0 frameC6 4 0 = -10 := by
    rw [cor0, cd, hcom4]
    norm_num [frameC6]
  have hdm3 : duomask frameC6 3 = true := by decide
  have hdm4 : duomask frameC6 4 = false := by decide
  refine ⟨by decide, by decide, by decide, hcor3, ?_, hcor4, ?_⟩
  · rw [whole, cor, hdm3]; norm_num
  · rw [whole, cor, hdm4, hcor4]
    norm_num [frameC6]

/-- Claim C6 (amended): `whole` zeroes the computed correction exactly on
the odd-indexed atoms of exactly-two-atom residues and keeps it elsewhere.
Hence, whenever a two-atom residue occupies the consecutive index pair
`(2k, 2k+1)` (the input-ordering precondition), the first atom of the pair
keeps its computed correction and the second atom's correction is zeroed;
atoms of residues of any other size always keep their computed
correction. -/
theorem whole_duo_pair (f : WFrame) (k : ℕ) (d : Fin 3)
    (hpair : f.residue_ids (2 * k + 1) = f.residue_ids (2 * k))
    (hcount : residue_count f (f.residue_ids (2 * k)) = 2) :
    whole f (2 * k) d = f.pos (2 * k) d + cor0 f (2 * k) d ∧
    whole f (2 * k + 1) d = f.pos (2 * k + 1) d ∧
    ∀ i : ℕ, residue_count f (f.residue_ids i) ≠ 2 →
      whole f i d = f.pos i d + cor0 f i d := by
  refine ⟨?_, ?_, ?_⟩
  · have hd : duomask f (2 * k) = false := by
      unfold duomask
      have hm : (2 * k) % 2 = 0 := Nat.mul_mod_right 2 k
      rw [hm]
      simp
    rw [whole, cor, hd]
    simp
  · have hd : duomask f (2 * k + 1) = true := by
      unfold duomask
      rw [hpair, hcount]
      have hm : (2 * k + 1) % 2 = 1 := by omega
      rw [hm]
      rfl
    rw [whole, cor, hd]
    simp
  · intro i hne
    have hd : duomask f i = false := by
      unfold duomask
      simp [hne]
    rw [whole, cor, hd]
    simp

/-- A two-atom single-residue frame used as a concrete witness input. -/
def framePair : WFrame := ⟨2, fun _ _ => 0, fun _ => 1, fun _ => 1, fun _ => 10⟩

/-- Witness for the amended claim C6 at `framePair` (`k = 0`, axis 0). -/
theorem whole_duo_pair_witness :
    whole framePair (2 * 0) 0 = framePair.pos (2 * 0) 0 + cor0 framePair (2 * 0) 0 ∧
    whole framePair (2 * 0 + 1) 0 = framePair.pos (2 * 0 + 1) 0 :=
  ⟨(whole_duo_pair framePair 0 0 rfl (by decide)).1,
   (whole_duo_pair framePair 0 0 rfl (by decide)).2.1⟩

/-! ## `pbc_points` (`pbc.py`, lines 110-140) -/

/-- The 26 nonzero shift triples, in the order of the triple `x, y, z` loop
of `pbc_points` (each ranges over `-1, 0, 1`; the zero triple is skipped by
the `if not (vv == 0).all()` test). -/
def boxShifts : List (ℤ × ℤ × ℤ) :=
  [(-1, -1, -1), (-1, -1, 0), (-1, -1, 1),
   (-1, 0, -1), (-1, 0, 0), (-1, 0, 1),
   (-1, 1, -1), (-1, 1, 0), (-1, 1, 1),
   (0, -1, -1), (0, -1, 0), (0, -1, 1),
   (0, 0, -1), (0, 0, 1),
   (0, 1, -1), (0, 1, 0), (0, 1, 1),
   (1, -1, -1), (1, -1, 0), (1, -1, 1),
   (1, 0, -1), (1, 0, 0), (1, 0, 1),
   (1, 1, -1), (1, 1, 0), (1, 1, 1)]

/-- `coordinates + vv * box` for one shift triple `vv`. -/
def shiftPoint (s : ℤ × ℤ × ℤ) (b : Vec3) (p : Vec3) : Vec3 :=
  (p.1 + (s.1 : ℚ) * b.1, p.2.1 + (s.2.1 : ℚ) * b.2.1, p.2.2 + (s.2.2 : ℚ) * b.2.2)

/-- `np.all(p < center + box/2 + thickness)` for one point. -/
def belowHi (p c b : Vec3) (t : ℚ) : Bool :=
  decide (p.1 < c.1 + b.1 / 2 + t) && decide (p.2.1 < c.2.1 + b.2.1 / 2 + t) &&
    decide (p.2.2 < c.2.2 + b.2.2 / 2 + t)

/-- `np.all(p > center - box/2 - thickness)` for one point. -/
def aboveLo (p c b : Vec3) (t : ℚ) : Bool :=
  decide (c.1 - b.1 / 2 - t < p.1) && decide (c.2.1 - b.2.1 / 2 - t < p.2.1) &&
    decide (c.2.2 - b.2.2 / 2 - t < p.2.2)

/-- `pbc_points(coordinates, box, thickness, index, inclusive, center)` from
`pbc.py` lines 110-140.  The returned pair is `(allcoordinates, indices)`;
the Python `index` flag only selects whether the second component is
returned to the caller, so it does not influence the computation here.
The two thickness filters run sequentially on coordinate/index pairs, and
the `inclusive` drop is guarded by `not inclusive and thickness > 0`,
exactly as in the source. -/
def pbc_points (coordinates : List Vec3) (box : Vec3) (thickness : ℚ)
    («index» inclusive : Bool) (center : Option Vec3) : List Vec3 × List ℕ :=
  let c := center.getD (box.1 / 2, box.2.1 / 2, box.2.2 / 2)
  let allcoordinates :=
    coordinates ++ (boxShifts.map fun s => coordinates.map (shiftPoint s box)).flatten
  let indices := (List.replicate 27 (List.range coordinates.length)).flatten
  let pairs := allcoordinates.zip indices
  let pairs := if thickness ≠ 0 then
      (pairs.filter fun q => belowHi q.1 c box thickness).filter
        fun q => aboveLo q.1 c box thickness
    else pairs
  let pairs := if (!inclusive) && decide (0 < thickness) then
      pairs.drop coordinates.length
    else pairs
  (pairs.map Prod.fst, pairs.map Prod.snd)

/-- The un-filtered image list has `27 · n` rows. -/
lemma all_images_length (pts : List Vec3) (box : Vec3) :
    (pts ++ (boxShifts.map fun s => pts.map (shiftPoint s box)).flatten).length =
      27 * pts.length := by
  rw [List.length_append, List.length_flatten, List.map_map]
  have h : (List.map (List.length ∘ fun s => pts.map (shiftPoint s box)) boxShifts) =
      List.replicate 26 pts.length := by
    have he : (List.length ∘ fun s => pts.map (shiftPoint s box)) =
        Function.const (ℤ × ℤ × ℤ) pts.length := by
      funext s
      simp [Function.const]
    rw [he, List.map_const]
    norm_num [boxShifts]
  rw [h, List.sum_replicate, smul_eq_mul]
  ring

/-- The tiled index list has `27 · n` entries. -/
lemma tile_indices_length (n : ℕ) :
    ((List.replicate 27 (List.range n)).flatten).length = 27 * n := by
  rw [List.length_flatten, List.map_replicate, List.length_range, List.sum_replicate,
    smul_eq_mul]

/-- With `thickness = 0` both shell filters and the `inclusive` drop are
skipped, so `pbc_points` returns the raw 27-fold tiling and the raw tiled
index array, whatever `index` and `inclusive` are. -/
lemma pbc_points_thickness_zero (pts : List Vec3) (box : Vec3) (idx inc : Bool) :
    pbc_points pts box 0 idx inc none =
      (pts ++ (boxShifts.map fun s => pts.map (shiftPoint s box)).flatten,
       (List.replicate 27 (List.range pts.length)).flatten) := by
  have hlen : (pts ++ (boxShifts.map fun s => pts.map (shiftPoint s box)).flatten).length =
      ((List.replicate 27 (List.range pts.length)).flatten).length := by
    rw [all_images_length, tile_indices_length]
  unfold pbc_points
  norm_num
  constructor
  · exact List.map_fst_zip _ _ (le_of_eq hlen)
  · exact List.map_snd_zip _ _ (le_of_eq hlen.symm)

/-- Counting across a flattened replicated block multiplies the count. -/
lemma count_flatten_replicate (n : ℕ) (l : List ℕ) (a : ℕ) :
    ((List.replicate n l).flatten).count a = n * l.count a := by
  induction n with
  | zero => simp
  | succ m ih =>
      rw [List.replicate_succ, List.flatten_cons, List.count_append, ih]
      ring

/-! ## Claim C7 -/

/-- Claim C7 is false as stated: for a single input point, the tiling has
`27 = 27 · len(points)` rows (that part holds), but the origin-index array
contains the index `0` twenty-seven times, not `len(points) = 1` times. -/
theorem pbc_points_tiling_counterexample :
    (pbc_points [((0 : ℚ), (0 : ℚ), (0 : ℚ))] (1, 1, 1) 0 true true none).1.length = 27 ∧
    (pbc_points [((0 : ℚ), (0 : ℚ), (0 : ℚ))] (1, 1, 1) 0 true true none).2.count 0 = 27 ∧
    ¬ (pbc_points [((0 : ℚ), (0 : ℚ), (0 : ℚ))] (1, 1, 1) 0 true true none).2.count 0 =
        [((0 : ℚ), (0 : ℚ), (0 : ℚ))].length := by
  rw [pbc_points_thickness_zero]
  dsimp only
  refine ⟨?_, ?_, ?_⟩
  · rw [all_images_length]; rfl
  · rw [count_flatten_replicate]; rfl
  · rw [count_flatten_replicate]; decide

/-- Claim C7 (amended): for every point set and box, `pbc_points` with
`thickness = 0` and `index = True` returns exactly `27 · len(points)` rows,
and the origin-index array contains each original index `i < len(points)`
exactly `27` times (once per periodic image), not `len(points)` times. -/
theorem pbc_points_tiling (pts : List Vec3) (box : Vec3) (hne : pts ≠ []) :
    (pbc_points pts box 0 true true none).1.length = 27 * pts.length ∧
    ∀ i : ℕ, i < pts.length →
      (pbc_points pts box 0 true true none).2.count i = 27 := by
  rw [pbc_points_thickness_zero]
  refine ⟨all_images_length pts box, ?_⟩
  intro i hi
  rw [count_flatten_replicate]
  have h1 : (List.range pts.length).count i = 1 :=
    List.count_eq_one_of_mem (List.nodup_range _) (List.mem_range.mpr hi)
  rw [h1]

/-- Witness for the amended claim C7 at a single point and unit box. -/
theorem pbc_points_tiling_witness :
    (pbc_points [((1 : ℚ), (2 : ℚ), (3 : ℚ))] (1, 1, 1) 0 true true none).1.length =
      27 * [((1 : ℚ), (2 : ℚ), (3 : ℚ))].length ∧
    (pbc_points [((1 : ℚ), (2 : ℚ), (3 : ℚ))] (1, 1, 1) 0 true true none).2.count 0 = 27 :=
  ⟨(pbc_points_tiling [((1 : ℚ), (2 : ℚ), (3 : ℚ))] (1, 1, 1) (List.cons_ne_nil _ _)).1,
   (pbc_points_tiling [((1 : ℚ), (2 : ℚ), (3 : ℚ))] (1, 1, 1) (List.cons_ne_nil _ _)).2 0
     (by norm_num)⟩

/-! ## Claim C8 -/

/-- Claim C8 is contradicted by the code: the rejection guard is
`if not inclusive and thickness > 0`, so `inclusive=False` with
`thickness = 0` is NOT rejected — no error path exists in the function —
and the call returns the full 27-fold tiling whose first row is the
original (non-image) point, contradicting the docstring's promise that
`inclusive=False` returns only images.  The embedding is total exactly
because the source raises nothing on this input. -/
theorem pbc_points_not_rejected :
    (pbc_points [((0 : ℚ), (0 : ℚ), (0 : ℚ))] (1, 1, 1) 0 false false none).1.length = 27 ∧
    (pbc_points [((0 : ℚ), (0 : ℚ), (0 : ℚ))] (1, 1, 1) 0 false false none).1.take 1 =
      [((0 : ℚ), (0 : ℚ), (0 : ℚ))] := by
  rw [pbc_points_thickness_zero]
  dsimp only
  constructor
  · rw [all_images_length]; rfl
  · rfl

/-! ## `nojump` (`pbc.py`, lines 73-107)

The cached path stores numpy arrays BY REFERENCE in the reader-attached
`OrderedDict`, and on a cache hit runs `delta = reader._nojump_cache[i0];
... ; delta += ...`, which mutates the cached array object in place and
then stores the same object again under the new key.  To be faithful to
that object identity the model keeps an explicit heap of array objects:
cache entries map a step key to a heap index. -/

/-- A per-atom / per-axis correction matrix (`natoms` rows, one column per
jump matrix, i.e. per box axis). -/
abbrev NJMat := List (List ℚ)

/-- `NOJUMP_CACHESIZE = 128` (`pbc.py` line 73). -/
def NOJUMP_CACHESIZE : ℕ := 128

/-- The per-reader inputs of `nojump` that stay fixed across calls:
`reader.nojump_matrixes` (one steps × atoms integer matrix per box axis;
outer list = time steps), the box diagonal (parallel to the matrices), and
the atom count. -/
structure NJParams where
  nojump_matrixes : List (List (List ℤ))
  box : List ℚ
  natoms : ℕ

/-- `np.array(np.vstack([m[i0:stop].sum(axis=0) for m in mats]).T) * box`:
row `a` holds, for each (matrix, box edge) pair, the summed crossing counts
of atom `a` over the step slice `[i0, stop)` times the box edge.  Python
slicing clamps to the available rows; `drop`/`take` mirror that exactly. -/
def deltaSlice (P : NJParams) (i0 stop : ℕ) : NJMat :=
  (List.range P.natoms).map fun a =>
    (P.nojump_matrixes.zip P.box).map fun mb =>
      (((mb.1.drop i0).take (stop - i0)).map fun row => ((row.getD a 0 : ℤ) : ℚ)).sum * mb.2

/-- Elementwise `delta += X` on correction matrices. -/
def addMat (x y : NJMat) : NJMat := List.zipWith (List.zipWith (· + ·)) x y

/-- The reader's `_nojump_cache` state: `entries` lists `(step key, heap
reference)` in insertion order (oldest first), `heap` holds the array
objects; several keys may reference the same object. -/
structure NJState where
  heap : List NJMat
  entries : List (ℕ × ℕ)

/-- A reader whose `_nojump_cache` was just lazily created (or never
populated): no objects, no entries. -/
def emptyNJ : NJState := ⟨[], []⟩

/-- `i0s = [x for x in cache if x <= step]; i0 = max(i0s)`: the cache entry
with the largest key `≤ s`, together with its heap reference, if any. -/
def njLookupMax (c : List (ℕ × ℕ)) (s : ℕ) : Option (ℕ × ℕ) :=
  (c.filter fun p => p.1 ≤ s).foldl
    (fun acc p =>
      match acc with
      | none => some p
      | some q => if q.1 ≤ p.1 then some p else some q)
    none

/-- `reader._nojump_cache[k] = (reference r)`: OrderedDict assignment — an
existing key keeps its position and gets the new reference, a new key is
appended last. -/
def njInsert (c : List (ℕ × ℕ)) (k r : ℕ) : List (ℕ × ℕ) :=
  if c.any fun p => p.1 = k then c.map fun p => if p.1 = k then (k, r) else p
  else c ++ [(k, r)]

/-- `while len(cache) > NOJUMP_CACHESIZE: cache.popitem(last=False)`. -/
def njEvict (c : List (ℕ × ℕ)) : List (ℕ × ℕ) :=
  c.drop (c.length - NOJUMP_CACHESIZE)

/-- One cached-path call `nojump(frame, usecache=True)` at step `s`
(`pbc.py` lines 83-101), returning the unrestricted correction `delta` and
the new reader state.  Cache hit: `delta = cache[i0]; i0 += 1; delta +=
vstack(...)` mutates the referenced array in place (`heap.set r nd`) and
`cache[frame.step] = delta` stores the SAME reference `r` under key `s`.
Cache miss: `i0 = 0; delta = 0`, and `delta += vstack(...)` rebinds to a
fresh array object. -/
def njStepCached (P : NJParams) (s : ℕ) (st : NJState) : NJMat × NJState :=
  match njLookupMax st.entries s with
  | some (i0, r) =>
      let nd := addMat (st.heap.getD r []) (deltaSlice P (i0 + 1) (s + 1))
      (nd, ⟨st.heap.set r nd, njEvict (njInsert st.entries s r)⟩)
  | none =>
      let nd := deltaSlice P 0 (s + 1)
      (nd, ⟨st.heap ++ [nd], njEvict (njInsert st.entries s st.heap.length)⟩)

/-- `delta = delta[selection, :]`: restriction to the selected atom rows. -/
def applySel (sel : List ℕ) (m : NJMat) : NJMat := sel.map fun a => m.getD a []

/-- The correction subtracted by the cached path (`return frame - delta`
with `delta = delta[selection, :]`), together with the updated reader
state. -/
def nojump_cached (P : NJParams) (sel : List ℕ) (s : ℕ) (st : NJState) :
    NJMat × NJState :=
  (applySel sel (njStepCached P s st).1, (njStepCached P s st).2)

/-- The uncached path (`pbc.py` lines 104-106): the correction
`np.array(np.vstack([m[:step+1, selection].sum(axis=0) for m in
mats]).T) * box` computed from scratch; slicing again clamps. -/
def nojump_uncached (P : NJParams) (sel : List ℕ) (s : ℕ) : NJMat :=
  sel.map fun a =>
    (P.nojump_matrixes.zip P.box).map fun mb =>
      ((mb.1.take (s + 1)).map fun row => ((row.getD a 0 : ℤ) : ℚ)).sum * mb.2

/-- A sequence of cached `nojump` calls against one reader. -/
def njRun (P : NJParams) (steps : List ℕ) (st : NJState) : NJState :=
  steps.foldl (fun t s => (njStepCached P s t).2) st

/-- Unfolding of a cache-hit call. -/
lemma njStepCached_hit (P : NJParams) (s : ℕ) (st : NJState) (i0 r : ℕ)
    (h : njLookupMax st.entries s = some (i0, r)) :
    njStepCached P s st =
      (addMat (st.heap.getD r []) (deltaSlice P (i0 + 1) (s + 1)),
       ⟨st.heap.set r (addMat (st.heap.getD r []) (deltaSlice P (i0 + 1) (s + 1))),
        njEvict (njInsert st.entries s r)⟩) := by
  unfold njStepCached
  rw [h]

/-- Unfolding of a cache-miss call. -/
lemma njStepCached_miss (P : NJParams) (s : ℕ) (st : NJState)
    (h : njLookupMax st.entries s = none) :
    njStepCached P s st =
      (deltaSlice P 0 (s + 1),
       ⟨st.heap ++ [deltaSlice P 0 (s + 1)],
        njEvict (njInsert st.entries s st.heap.length)⟩) := by
  unfold njStepCached
  rw [h]

/-- Jump data with two steps for one atom crossing the first box boundary
at every step; three axes, unit box. -/
def paramsTwoStep : NJParams := ⟨[[[1], [1]], [[0], [0]], [[0], [0]]], [1, 1, 1], 1⟩

/-- Jump data with six steps for one atom crossing the first box boundary
at every step; three axes, unit box. -/
def paramsSixStep : NJParams :=
  ⟨[[[1], [1], [1], [1], [1], [1]],
    [[0], [0], [0], [0], [0], [0]],
    [[0], [0], [0], [0], [0], [0]]], [1, 1, 1], 1⟩

/-! ### Concrete evaluations of the cached path -/

/-- `deltaSlice` value used below. -/
lemma ds2_01 : deltaSlice paramsTwoStep 0 1 = [[1, 0, 0]] := by
  norm_num [deltaSlice, paramsTwoStep, List.range_succ]

/-- `deltaSlice` value used below. -/
lemma ds2_12 : deltaSlice paramsTwoStep 1 2 = [[1, 0, 0]] := by
  norm_num [deltaSlice, paramsTwoStep, List.range_succ]

/-- `deltaSlice` value used below. -/
lemma ds6_01 : deltaSlice paramsSixStep 0 1 = [[1, 0, 0]] := by
  norm_num [deltaSlice, paramsSixStep, List.range_succ]

/-- `deltaSlice` value used below. -/
lemma ds6_16 : deltaSlice paramsSixStep 1 6 = [[5, 0, 0]] := by
  norm_num [deltaSlice, paramsSixStep, List.range_succ]

/-- `deltaSlice` value used below. -/
lemma ds6_13 : deltaSlice paramsSixStep 1 3 = [[2, 0, 0]] := by
  norm_num [deltaSlice, paramsSixStep, List.range_succ]

/-- `deltaSlice` value used below. -/
lemma ds6_66 : deltaSlice paramsSixStep 6 6 = [[0, 0, 0]] := by
  norm_num [deltaSlice, paramsSixStep, List.range_succ]

/-- `deltaSlice` value used below. -/
lemma ds6_06 : deltaSlice paramsSixStep 0 6 = [[6, 0, 0]] := by
  norm_num [deltaSlice, paramsSixStep, List.range_succ]

/-- `deltaSlice` value used below. -/
lemma ds6_0101 : deltaSlice paramsSixStep 0 101 = [[6, 0, 0]] := by
  norm_num [deltaSlice, paramsSixStep, List.range_succ]

/-- First call at step 0 on the two-step data: cache miss, stores the exact
step-0 correction. -/
lemma njP2_step0 : njStepCached paramsTwoStep 0 emptyNJ =
    ([[1, 0, 0]], ⟨[[[1, 0, 0]]], [(0, 0)]⟩) := by
  rw [njStepCached_miss paramsTwoStep 0 emptyNJ rfl]
  norm_num [ds2_01, emptyNJ, njEvict, njInsert, NOJUMP_CACHESIZE]

/-- Second call at step 1: cache hit at checkpoint 0; the `delta += ...`
in-place addition overwrites the heap object that key 0 still references. -/
lemma njP2_step1 : njStepCached paramsTwoStep 1 ⟨[[[1, 0, 0]]], [(0, 0)]⟩ =
    ([[2, 0, 0]], ⟨[[[2, 0, 0]]], [(0, 0), (1, 0)]⟩) := by
  rw [njStepCached_hit paramsTwoStep 1 ⟨[[[1, 0, 0]]], [(0, 0)]⟩ 0 0 rfl]
  norm_num [ds2_12, addMat, njEvict, njInsert, NOJUMP_CACHESIZE,
    List.getD_cons_zero]

/-- The reader state after the call sequence `[0]` on the two-step data. -/
lemma njRunP2_0 : njRun paramsTwoStep [0] emptyNJ = ⟨[[[1, 0, 0]]], [(0, 0)]⟩ := by
  simp only [njRun, List.foldl_cons, List.foldl_nil]
  rw [njP2_step0]

/-- The reader state after the call sequence `[0, 1]` on the two-step
data: the array stored under key 0 now holds the step-1 value. -/
lemma njRunP2_01 : njRun paramsTwoStep [0, 1] emptyNJ =
    ⟨[[[2, 0, 0]]], [(0, 0), (1, 0)]⟩ := by
  simp only [njRun, List.foldl_cons, List.foldl_nil]
  rw [njP2_step0]
  dsimp only
  rw [njP2_step1]

/-- Call at step 0 on the six-step data (cache miss). -/
lemma njP6_step0 : njStepCached paramsSixStep 0 emptyNJ =
    ([[1, 0, 0]], ⟨[[[1, 0, 0]]], [(0, 0)]⟩) := by
  rw [njStepCached_miss paramsSixStep 0 emptyNJ rfl]
  norm_num [ds6_01, emptyNJ, njEvict, njInsert, NOJUMP_CACHESIZE]

/-- Call at step 5 with checkpoint 0 cached: hit, mutates the shared
object to the step-5 value and aliases key 5 to it. -/
lemma njP6_step5 : njStepCached paramsSixStep 5 ⟨[[[1, 0, 0]]], [(0, 0)]⟩ =
    ([[6, 0, 0]], ⟨[[[6, 0, 0]]], [(0, 0), (5, 0)]⟩) := by
  rw [njStepCached_hit paramsSixStep 5 ⟨[[[1, 0, 0]]], [(0, 0)]⟩ 0 0 rfl]
  norm_num [ds6_16, addMat, njEvict, njInsert, NOJUMP_CACHESIZE,
    List.getD_cons_zero]

/-- Out-of-order call at step 2: the hit lands on the corrupted checkpoint
0 (which now holds the step-5 value) and adds the crossings of steps 1-2 on
top, producing `8·box` and corrupting the shared object further — keys 0, 5
and 2 all reference it. -/
lemma njP6_step2 : njStepCached paramsSixStep 2 ⟨[[[6, 0, 0]]], [(0, 0), (5, 0)]⟩ =
    ([[8, 0, 0]], ⟨[[[8, 0, 0]]], [(0, 0), (5, 0), (2, 0)]⟩) := by
  rw [njStepCached_hit paramsSixStep 2 ⟨[[[6, 0, 0]]], [(0, 0), (5, 0)]⟩ 0 0 rfl]
  norm_num [ds6_13, addMat, njEvict, njInsert, NOJUMP_CACHESIZE,
    List.getD_cons_zero]

/-- Query at step 5 against the corrupted state: the lookup takes
checkpoint 5, whose shared object was mutated to `8·box`. -/
lemma njP6_query5 : njStepCached paramsSixStep 5 ⟨[[[8, 0, 0]]], [(0, 0), (5, 0), (2, 0)]⟩ =
    ([[8, 0, 0]], ⟨[[[8, 0, 0]]], [(0, 0), (5, 0), (2, 0)]⟩) := by
  rw [njStepCached_hit paramsSixStep 5 ⟨[[[8, 0, 0]]], [(0, 0), (5, 0), (2, 0)]⟩ 5 0 rfl]
  norm_num [ds6_66, addMat, njEvict, njInsert, NOJUMP_CACHESIZE,
    List.getD_cons_zero]

/-- Query at step 5 with an empty cache: the exact correction `6·box`. -/
lemma njP6_empty5 : njStepCached paramsSixStep 5 emptyNJ =
    ([[6, 0, 0]], ⟨[[[6, 0, 0]]], [(5, 0)]⟩) := by
  rw [njStepCached_miss paramsSixStep 5 emptyNJ rfl]
  norm_num [ds6_06, emptyNJ, njEvict, njInsert, NOJUMP_CACHESIZE]

/-- Query at step 100 (beyond the six available steps) with an empty
cache: the slice clamps and the call returns the step-5 value. -/
lemma njP6_empty100 : njStepCached paramsSixStep 100 emptyNJ =
    ([[6, 0, 0]], ⟨[[[6, 0, 0]]], [(100, 0)]⟩) := by
  rw [njStepCached_miss paramsSixStep 100 emptyNJ rfl]
  norm_num [ds6_0101, emptyNJ, njEvict, njInsert, NOJUMP_CACHESIZE]

/-- The reader state after the out-of-order call sequence `[0, 5, 2]`. -/
lemma njRunP6_052 : njRun paramsSixStep [0, 5, 2] emptyNJ =
    ⟨[[[8, 0, 0]]], [(0, 0), (5, 0), (2, 0)]⟩ := by
  simp only [njRun, List.foldl_cons, List.foldl_nil]
  rw [njP6_step0]
  dsimp only
  rw [njP6_step5]
  dsimp only
  rw [njP6_step2]

/-! ## Claim C2 -/

/-- Claim C2 is right and the code violates it (code bug): on the cache-hit
path `delta = reader._nojump_cache[i0]` followed by `delta += ...` mutates
the cached checkpoint array in place.  With one atom crossing at every
step (unit box), after `nojump(0)` the cache holds the exact step-0
correction `[[1,0,0]]` under key 0; the later call `nojump(1)` changes the
array stored under key 0 to `[[2,0,0]] ≠ [[1,0,0]]`, breaking the claimed
invariant that earlier checkpoints never change. -/
theorem nojump_cache_checkpoint_corrupted :
    (njRun paramsTwoStep [0] emptyNJ).entries = [(0, 0)] ∧
    (njRun paramsTwoStep [0] emptyNJ).heap.getD 0 [] = [[1, 0, 0]] ∧
    deltaSlice paramsTwoStep 0 1 = [[1, 0, 0]] ∧
    (njRun paramsTwoStep [0, 1] emptyNJ).entries = [(0, 0), (1, 0)] ∧
    (njRun paramsTwoStep [0, 1] emptyNJ).heap.getD 0 [] = [[2, 0, 0]] ∧
    ([[2, 0, 0]] : NJMat) ≠ [[1, 0, 0]] := by
  refine ⟨?_, ?_, ds2_01, ?_, ?_, ?_⟩
  · rw [njRunP2_0]
  · rw [njRunP2_0]; rfl
  · rw [njRunP2_01]
  · rw [njRunP2_01]; rfl
  · norm_num

/-! ## Claim C1 -/

/-- Claim C1 is right and the code violates it (code bug): because cache
hits mutate and alias the stored numpy arrays (see claim C2), an
out-of-order prior call history corrupts later lookups.  With one atom
crossing at every one of 6 steps (unit box), after the prior calls
`nojump(0), nojump(5), nojump(2)` — whose cached checkpoints {0, 5, 2} are
all ≤ 5 — the call `nojump(5)` returns the correction `8·box`, while with
an empty cache (and on the uncached path) it returns the exact sum
`6·box`. -/
theorem nojump_history_corrupts_correction :
    (∀ p ∈ (njRun paramsSixStep [0, 5, 2] emptyNJ).entries, p.1 ≤ 5) ∧
    (nojump_cached paramsSixStep [0] 5 (njRun paramsSixStep [0, 5, 2] emptyNJ)).1 =
      [[8, 0, 0]] ∧
    (nojump_cached paramsSixStep [0] 5 emptyNJ).1 = [[6, 0, 0]] ∧
    nojump_uncached paramsSixStep [0] 5 = [[6, 0, 0]] ∧
    ([[8, 0, 0]] : NJMat) ≠ [[6, 0, 0]] := by
  refine ⟨?_, ?_, ?_, ?_, ?_⟩
  · rw [njRunP6_052]; decide
  · unfold nojump_cached
    rw [njRunP6_052]
    dsimp only
    rw [njP6_query5]
    norm_num [applySel]
  · unfold nojump_cached
    dsimp only
    rw [njP6_empty5]
    norm_num [applySel]
  · norm_num [nojump_uncached, paramsSixStep]
  · norm_num

/-! ## Claim C3 -/

/-- Claim C3 is right and the code violates it (code bug): Python slicing
`m[i0:step+1]` / `m[:step+1, selection]` clamps to the available rows, so a
step index beyond the jump matrices raises nothing on either path; both
paths silently truncate the summation and return the correction of the
last available step.  Here the six-step data queried at step 100 returns
exactly the step-5 correction, on the uncached and the cached path. -/
theorem nojump_out_of_range_clamps :
    (∀ m ∈ paramsSixStep.nojump_matrixes, m.length = 6) ∧
    nojump_uncached paramsSixStep [0] 100 = [[6, 0, 0]] ∧
    nojump_uncached paramsSixStep [0] 5 = [[6, 0, 0]] ∧
    (nojump_cached paramsSixStep [0] 100 emptyNJ).1 = [[6, 0, 0]] := by
  refine ⟨by decide, ?_, ?_, ?_⟩
  · norm_num [nojump_uncached, paramsSixStep]
  · norm_num [nojump_uncached, paramsSixStep]
  · unfold nojump_cached
    dsimp only
    rw [njP6_empty100]
    norm_num [applySel]
